import Mathlib

/-!
Verification of the codex-server gateway (src/codex-rs/server/src/lib.rs).

The development shallowly embeds the request/response translation layer of the
gateway: the JSON data model (serde_json::Value), the bearer-token gate
(check_auth), the chat-to-responses request normalizer
(map_chat_messages_to_responses_input), the ChatGPT-mode stamping of upstream
bodies, the non-streaming response composer of chat_to_responses_proxy_cc and
the SSE reassembly / streaming bridge loop of the same function.

Byte buffers of the streaming path are modelled as List Char (the upstream
bytes in question are UTF-8 text); machine integers are modelled as Nat / Int
with explicit wrap-around where u64 arithmetic occurs.
-/

/-- Newline byte, written via its code point to keep the text free of escape
sequences inside character literals. -/
def nl : Char := Char.ofNat 10

/-- serde_json::Value.  Numbers that carry a fraction or an exponent are kept
abstract as their literal text (constructor fnum): the gateway never reads a
numeric field of such a value, it only needs them to round-trip through the
parser.  Integral numbers are modelled as Int. -/
inductive Json where
  | null : Json
  | bool (b : Bool) : Json
  | num (n : Int) : Json
  | fnum (lit : String) : Json
  | str (s : String) : Json
  | arr (xs : List Json) : Json
  | obj (fields : List (String × Json)) : Json

namespace Json

/-- Field lookup inside an object. -/
def lookupField : List (String × Json) → String → Option Json
  | [], _ => none
  | (k', v) :: rest, k => if k' = k then some v else lookupField rest k

/-- Value::get on objects (map lookup).  Parsed objects never hold duplicate
keys (insertion replaces, as in serde_json::Map::insert), so first match is
the map lookup. -/
def get (j : Json) (k : String) : Option Json :=
  match j with
  | .obj fields => lookupField fields k
  | _ => none

/-- Insert or replace a field, as serde_json::Map::insert does. -/
def insertField : List (String × Json) → String → Json → List (String × Json)
  | [], k, v => [(k, v)]
  | (k', v') :: rest, k, v =>
      if k' = k then (k, v) :: rest else (k', v') :: insertField rest k v

/-- Index assignment body[k] = v.  On an object it inserts/replaces; on Null
serde_json creates a fresh object.  On any other value serde_json panics; that
branch is modelled as the identity and every theorem that uses setField
assumes the value is an object, so the branch is never exercised. -/
def setField (j : Json) (k : String) (v : Json) : Json :=
  match j with
  | .obj fields => .obj (insertField fields k v)
  | .null => .obj [(k, v)]
  | other => other

/-- Value::as_str. -/
def asStr : Json → Option String
  | .str s => some s
  | _ => none

/-- Value::as_array. -/
def asArr : Json → Option (List Json)
  | .arr xs => some xs
  | _ => none

/-- Value::as_u64: integral, non-negative and within u64 range. -/
def asU64 : Json → Option Nat
  | .num n => if 0 ≤ n ∧ n ≤ (18446744073709551615 : Int) then some n.toNat else none
  | _ => none

/-- Whether the value is a JSON string. -/
def isStr : Json → Bool
  | .str _ => true
  | _ => false

/-- Whether the value is a JSON array. -/
def isArrOf : Json → Bool
  | .arr _ => true
  | _ => false

/-- Whether the value is a JSON object. -/
def isObj : Json → Bool
  | .obj _ => true
  | _ => false

end Json

/-- codex_core::WireApi, the wire protocol of the configured provider.
Modelled from the spec: ProviderWireKind is the enum of the two recognized
kinds, Responses and ChatCompletions (the defining crate is outside the
reviewed sources). -/
inductive WireApi where
  | responses : WireApi
  | chat : WireApi
deriving DecidableEq

/-- codex_login::AuthMode of a resolved CodexAuth.  The gateway inspects the
resolved mode only to detect ChatGPT; the credential loader itself is an
external collaborator, so the mode is an input of the model. -/
inductive AuthMode where
  | chatGPT : AuthMode
  | apiKey : AuthMode
deriving DecidableEq

/-- check_auth (src/codex-rs/server/src/lib.rs lines 169-183). -/
def checkAuth (allowNoAuth : Bool) (bearer : Option String) (header : Option String) : Bool :=
  if allowNoAuth then true
  else
    match bearer with
    | none => false
    | some expected =>
      match header with
      | some h => if h.take 7 = "Bearer " then decide (h.drop 7 = expected) else false
      | none => false

/-- Body of the 401 reply produced by unauthorized() (lines 162-167). -/
def unauthorizedBody : Json :=
  .obj [("error", .obj [("message", .str "Unauthorized")])]

/-- The observable outcome of a handler before any upstream I/O: either a
terminal local reply (status, body) or a forwarded upstream request carrying
the streaming flag and the upstream JSON body. -/
inductive Handled where
  | reply (status : Nat) (body : Json) : Handled
  | forward (stream : Bool) (body : Json) : Handled

/-- One inbound chat message (struct OpenAIChatMessage, lines 140-144):
role plus arbitrary JSON content. -/
structure OpenAIChatMessage where
  role : String
  content : Json

/-- The text-joining loop of map_chat_messages_to_responses_input over array
content (lines 450-459): any item carrying a string "text" field contributes;
a newline separator is pushed only when the accumulated buffer is non-empty. -/
def joinTexts (items : List Json) : List Char :=
  items.foldl
    (fun buf item =>
      match (item.get "text").bind Json.asStr with
      | some s => if buf = [] then buf ++ s.data else buf ++ nl :: s.data
      | none => buf)
    []

/-- The content match of map_chat_messages_to_responses_input (lines 447-462):
string content verbatim, array content joined, anything else empty. -/
def chatContentText (c : Json) : List Char :=
  match c with
  | .str s => s.data
  | .arr items => joinTexts items
  | _ => []

/-- One loop iteration of map_chat_messages_to_responses_input (lines
445-468): the input item built for one message. -/
def msgToItem (m : OpenAIChatMessage) : Json :=
  let ty := if m.role = "assistant" then "output_text" else "input_text"
  .obj [("role", .str m.role),
        ("content", .arr [.obj [("type", .str ty),
                                ("text", .str (String.mk (chatContentText m.content)))]])]

/-- map_chat_messages_to_responses_input (lines 443-470). -/
def mapChatMessagesToResponsesInput (msgs : List OpenAIChatMessage) : Json :=
  .arr (msgs.map msgToItem)

/-- The upstream request body built by chat_to_responses_proxy_cc (lines
604-629): the fixed translation skeleton, then ChatGPT stamping (store=false,
instructions = base text) or, otherwise, a minimal default for the absent
instructions field.  coreBase stands for CORE_BASE_INSTRUCTIONS, the
include_str of core/prompt.md, whose text lives outside the reviewed sources
and is therefore a parameter. -/
def ccRequestBody (auth : Option AuthMode) (coreBase : String) (model : String)
    (stream : Bool) (msgs : List OpenAIChatMessage) : Json :=
  let body : Json :=
    .obj [("model", .str model),
          ("input", mapChatMessagesToResponsesInput msgs),
          ("tools", .arr []),
          ("tool_choice", .str "auto"),
          ("parallel_tool_calls", .bool false),
          ("stream", .bool stream),
          ("include", .arr [])]
  if auth = some .chatGPT then
    (body.setField "store" (.bool false)).setField "instructions" (.str coreBase)
  else if (body.get "instructions").isNone then
    body.setField "instructions" (.str "You are Codex, a helpful coding assistant.")
  else body

/-- The passthrough body of chat_completions for a Chat-Completions provider
(lines 205-211). -/
def passthroughChatBody (model : String) (stream : Bool)
    (msgs : List OpenAIChatMessage) : Json :=
  let payload : Json :=
    .obj [("model", .str model),
          ("messages", .arr (msgs.map (fun m => .obj [("role", .str m.role), ("content", m.content)])))]
  if stream then payload.setField "stream" (.bool true) else payload

/-- Inbound body of POST /v1/chat/completions (struct ChatCompletionsRequest,
lines 129-138; the unused temperature and max_tokens fields are omitted). -/
structure ChatCompletionsRequest where
  model : Option String
  messages : List OpenAIChatMessage
  stream : Option Bool

/-- The chat_completions handler up to the point where upstream I/O starts
(lines 185-211): auth gate, model/stream defaulting, then either the
translating proxy body (Responses provider) or the passthrough body. -/
def chatCompletionsHandler (allowNoAuth : Bool) (bearer : Option String)
    (header : Option String) (cfgModel : String) (wire : WireApi)
    (auth : Option AuthMode) (coreBase : String) (req : ChatCompletionsRequest) : Handled :=
  if checkAuth allowNoAuth bearer header = false then .reply 401 unauthorizedBody
  else
    let model := req.model.getD cfgModel
    let stream := req.stream.getD false
    if wire = .responses then
      .forward stream (ccRequestBody auth coreBase model stream req.messages)
    else
      .forward stream (passthroughChatBody model stream req.messages)

/-- The body transformation of the responses handler (lines 336-350): ChatGPT
stamping, then the instructions fallback taken when the field is absent or not
a string. -/
def responsesBodyTransform (auth : Option AuthMode) (coreBase : String)
    (baseInstructions : Option String) (body : Json) : Json :=
  let b1 :=
    if auth = some .chatGPT then
      (body.setField "store" (.bool false)).setField "instructions" (.str coreBase)
    else body
  if (b1.get "instructions").isNone ∨ ((b1.get "instructions").bind Json.asStr).isNone then
    b1.setField "instructions"
      (.str (baseInstructions.getD
        "You are Codex, a helpful coding assistant. Keep responses concise and accurate."))
  else b1

/-- The responses handler up to the point where upstream I/O starts (lines
302-350): auth gate, the 501 reply for a Chat-Completions provider, then the
body transformation and the streaming flag. -/
def responsesHandler (allowNoAuth : Bool) (bearer : Option String)
    (header : Option String) (wire : WireApi) (auth : Option AuthMode)
    (coreBase : String) (baseInstructions : Option String) (body : Json) : Handled :=
  if checkAuth allowNoAuth bearer header = false then .reply 401 unauthorizedBody
  else if wire ≠ .responses then
    .reply 501 (.obj [("error", .obj [("message",
      .str "Provider uses Chat Completions; /v1/responses not supported for this provider")])])
  else
    let stream := ((body.get "stream").bind (fun v =>
      match v with | .bool b => some b | _ => none)).getD false
    .forward stream (responsesBodyTransform auth coreBase baseInstructions body)

/-- The list_models handler (lines 117-127): auth gate, then the static model
list. -/
def listModelsHandler (allowNoAuth : Bool) (bearer : Option String)
    (header : Option String) (cfgModel : String) : Handled :=
  if checkAuth allowNoAuth bearer header = false then .reply 401 unauthorizedBody
  else .reply 200 (.obj [("object", .str "list"),
                         ("data", .arr [.obj [("id", .str cfgModel), ("object", .str "model")]])])

/-- The output-array lookup of the non-streaming translating path (lines
670-672): "output" directly, or nested under "response". -/
def outputLookup (v : Json) : Option Json :=
  match v.get "output" with
  | some o => some o
  | none => (v.get "response").bind (fun r => r.get "output")

/-- Text of one part inside a "message" output item (lines 678-684). -/
def partText (part : Json) : String :=
  if (part.get "type").bind Json.asStr = some "output_text" then
    ((part.get "text").bind Json.asStr).getD ""
  else ""

/-- Text contributed by one output item (lines 675-687). -/
def itemText (item : Json) : String :=
  if (item.get "type").bind Json.asStr = some "message" then
    match (item.get "content").bind Json.asArr with
    | some parts => String.join (parts.map partText)
    | none => ""
  else ""

/-- The content accumulation of the non-streaming translating path (lines
673-688): concatenated output_text of every message item, empty when no
output array is found. -/
def contentOf (v : Json) : String :=
  match ((outputLookup v).getD (.arr [])).asArr with
  | some items => String.join (items.map itemText)
  | none => ""

/-- The usage lookup (lines 689-691). -/
def usageOf (v : Json) : Json :=
  (match v.get "usage" with
   | some u => some u
   | none => (v.get "response").bind (fun r => r.get "usage")).getD (.obj [])

/-- prompt_tokens (line 692). -/
def promptTokensOf (v : Json) : Nat :=
  (((usageOf v).get "input_tokens").bind Json.asU64).getD 0

/-- completion_tokens (line 693). -/
def completionTokensOf (v : Json) : Nat :=
  (((usageOf v).get "output_tokens").bind Json.asU64).getD 0

/-- total_tokens (line 694).  The fallback sum is u64 arithmetic, hence the
explicit wrap-around modulo 2^64. -/
def totalTokensOf (v : Json) : Nat :=
  (((usageOf v).get "total_tokens").bind Json.asU64).getD
    ((promptTokensOf v + completionTokensOf v) % 18446744073709551616)

/-- The chat.completion body composed by the non-streaming translating path
(lines 696-711).  uuid and created stand for the fresh request id and the
current timestamp. -/
def ccBody (uuid : String) (created : Int) (model : String) (v : Json) : Json :=
  .obj [("id", .str ("chatcmpl-" ++ uuid)),
        ("object", .str "chat.completion"),
        ("created", .num created),
        ("model", .str model),
        ("choices", .arr [.obj [("index", .num 0),
                                ("message", .obj [("role", .str "assistant"),
                                                  ("content", .str (contentOf v))]),
                                ("finish_reason", .str "stop")]]),
        ("usage", .obj [("prompt_tokens", .num (promptTokensOf v)),
                        ("completion_tokens", .num (completionTokensOf v)),
                        ("total_tokens", .num (totalTokensOf v))])]

/-- StatusCode::from_u16(..).unwrap_or(BAD_GATEWAY) (line 667): any code the
http crate accepts (100..=999) passes through, anything else becomes 502. -/
def statusClamp (s : Nat) : Nat :=
  if 100 ≤ s ∧ s ≤ 999 then s else 502

/-- The reply of the non-streaming translating path once the upstream reply
arrived (lines 664-726): the upstream body either parses as JSON (composed
chat.completion under the forwarded status) or does not (502 with the
invalid-upstream-json envelope). -/
def ccNonStreamingReply (upstreamStatus : Nat) (parsed : Option Json)
    (errText : String) (uuid : String) (created : Int) (model : String) : Nat × Json :=
  match parsed with
  | some v => (statusClamp upstreamStatus, ccBody uuid created model v)
  | none => (502, .obj [("error", .obj [("message", .str ("invalid upstream json: " ++ errText))])])

/-- JSON whitespace accepted by serde_json between tokens. -/
def isJsonWs (c : Char) : Bool :=
  c = Char.ofNat 32 ∨ c = Char.ofNat 9 ∨ c = Char.ofNat 10 ∨ c = Char.ofNat 13

/-- Skip inter-token whitespace. -/
def skipWs (s : List Char) : List Char :=
  s.dropWhile isJsonWs

/-- Decimal digit test. -/
def isDigitCh (c : Char) : Bool :=
  '0' ≤ c ∧ c ≤ '9'

/-- Hex digit value, for string escapes of the form backslash-u. -/
def hexVal (c : Char) : Option Nat :=
  if '0' ≤ c ∧ c ≤ '9' then some (c.toNat - '0'.toNat)
  else if 'a' ≤ c ∧ c ≤ 'f' then some (c.toNat - 'a'.toNat + 10)
  else if 'A' ≤ c ∧ c ≤ 'F' then some (c.toNat - 'A'.toNat + 10)
  else none

/-- Body of a JSON string after the opening quote: plain characters, the
short escapes and the 4-hex-digit escape; raw control characters are
rejected, as serde_json rejects them. -/
def parseStringBody (acc : List Char) : List Char → Option (String × List Char)
  | [] => none
  | c :: rest =>
    if c = '"' then some (String.mk acc.reverse, rest)
    else if c = '\\' then
      match rest with
      | [] => none
      | e :: rest2 =>
        if e = '"' then parseStringBody ('"' :: acc) rest2
        else if e = '\\' then parseStringBody ('\\' :: acc) rest2
        else if e = '/' then parseStringBody ('/' :: acc) rest2
        else if e = 'b' then parseStringBody (Char.ofNat 8 :: acc) rest2
        else if e = 'f' then parseStringBody (Char.ofNat 12 :: acc) rest2
        else if e = 'n' then parseStringBody (Char.ofNat 10 :: acc) rest2
        else if e = 'r' then parseStringBody (Char.ofNat 13 :: acc) rest2
        else if e = 't' then parseStringBody (Char.ofNat 9 :: acc) rest2
        else if e = 'u' then
          match rest2 with
          | h1 :: h2 :: h3 :: h4 :: rest3 =>
            match hexVal h1, hexVal h2, hexVal h3, hexVal h4 with
            | some a, some b, some c', some d =>
                parseStringBody (Char.ofNat (((a * 16 + b) * 16 + c') * 16 + d) :: acc) rest3
            | _, _, _, _ => none
          | _ => none
        else none
    else if c.toNat < 32 then none
    else parseStringBody (c :: acc) rest

/-- Span of decimal digits. -/
def takeDigits (s : List Char) : List Char × List Char :=
  (s.takeWhile isDigitCh, s.dropWhile isDigitCh)

/-- Digit list to Nat (most significant first). -/
def digitsToNat (ds : List Char) : Nat :=
  ds.foldl (fun n c => n * 10 + (c.toNat - '0'.toNat)) 0

/-- A JSON number: optional minus, integer digits without a redundant leading
zero, optional fraction and exponent.  A plain integer becomes Json.num, a
fraction or exponent keeps the literal as Json.fnum. -/
def parseNumber (s : List Char) : Option (Json × List Char) :=
  let (neg, s1) := match s with
    | '-' :: rest => (true, rest)
    | _ => (false, s)
  let (ds, s2) := takeDigits s1
  match ds with
  | [] => none
  | d0 :: dtail =>
    if d0 = '0' ∧ dtail ≠ [] then none
    else
      let (frac, s3) := match s2 with
        | '.' :: rest =>
          let (fs, r) := takeDigits rest
          if fs = [] then ([], '.' :: rest) else ('.' :: fs, r)
        | _ => ([], s2)
      let fracBad : Bool := match s2 with
        | '.' :: rest => decide ((takeDigits rest).1 = [])
        | _ => false
      let (ex, s4) := match s3 with
        | e :: rest =>
          if e = 'e' ∨ e = 'E' then
            let (sg, r1) := match rest with
              | '+' :: r => (['+'], r)
              | '-' :: r => (['-'], r)
              | _ => (([] : List Char), rest)
            let (es, r2) := takeDigits r1
            if es = [] then (([] : List Char), s3) else (e :: sg ++ es, r2)
          else ([], s3)
        | [] => ([], s3)
      let exBad : Bool := match s3 with
        | e :: rest =>
          if e = 'e' ∨ e = 'E' then
            decide ((takeDigits (match rest with
              | '+' :: r => r
              | '-' :: r => r
              | _ => rest)).1 = [])
          else false
        | [] => false
      if fracBad || exBad then none
      else if frac = [] ∧ ex = [] then
        let n : Int := Int.ofNat (digitsToNat ds)
        some (.num (if neg then -n else n), s2)
      else
        some (.fnum (String.mk ((if neg then ['-'] else []) ++ ds ++ frac ++ ex)), s4)

mutual

/-- Recursive-descent JSON value, structurally fueled; the fuel passed at the
top level always suffices for the input length. -/
def parseVal : Nat → List Char → Option (Json × List Char)
  | 0, _ => none
  | fuel + 1, s =>
    match skipWs s with
    | [] => none
    | c :: rest =>
      if c = '{' then
        match skipWs rest with
        | '}' :: rest2 => some (.obj [], rest2)
        | other => parseObjFields fuel other []
      else if c = '[' then
        match skipWs rest with
        | ']' :: rest2 => some (.arr [], rest2)
        | other => parseArrElems fuel other []
      else if c = '"' then
        (parseStringBody [] rest).map (fun (s, r) => (.str s, r))
      else if c = 't' then
        match rest with
        | 'r' :: 'u' :: 'e' :: rest2 => some (.bool true, rest2)
        | _ => none
      else if c = 'f' then
        match rest with
        | 'a' :: 'l' :: 's' :: 'e' :: rest2 => some (.bool false, rest2)
        | _ => none
      else if c = 'n' then
        match rest with
        | 'u' :: 'l' :: 'l' :: rest2 => some (.null, rest2)
        | _ => none
      else if c = '-' ∨ isDigitCh c then parseNumber (c :: rest)
      else none

/-- Array elements after the opening bracket (non-empty case). -/
def parseArrElems : Nat → List Char → List Json → Option (Json × List Char)
  | 0, _, _ => none
  | fuel + 1, s, acc =>
    match parseVal fuel s with
    | none => none
    | some (v, rest) =>
      match skipWs rest with
      | ',' :: rest2 => parseArrElems fuel rest2 (v :: acc)
      | ']' :: rest2 => some (.arr (v :: acc).reverse, rest2)
      | _ => none

/-- Object fields after the opening brace (non-empty case); duplicate keys
replace, as in serde_json::Map::insert. -/
def parseObjFields : Nat → List Char → List (String × Json) → Option (Json × List Char)
  | 0, _, _ => none
  | fuel + 1, s, acc =>
    match skipWs s with
    | c :: rest =>
      if c = '"' then
        match parseStringBody [] rest with
        | none => none
        | some (k, rest2) =>
          match skipWs rest2 with
          | ':' :: rest3 =>
            match parseVal fuel rest3 with
            | none => none
            | some (v, rest4) =>
              match skipWs rest4 with
              | ',' :: rest5 => parseObjFields fuel rest5 (Json.insertField acc k v)
              | '}' :: rest5 => some (.obj (Json.insertField acc k v), rest5)
              | _ => none
          | _ => none
      else none
    | [] => none

end

/-- serde_json::from_str: a full parse with nothing but whitespace left. -/
def parseJson (s : List Char) : Option Json :=
  match parseVal (4 * (s.length + 1)) s with
  | some (v, rest) => if skipWs rest = [] then some v else none
  | none => none

/-- Per-session constants stamped into every translated frame (StreamingSession
id / created_at / model_name): cc_id and created of lines 742-743 plus the
resolved model. -/
structure Sess where
  id : String
  created : Int
  model : String

/-- One message pushed onto the bridge channel: a translated JSON frame (sent
on the wire as data colon, the serialized value, blank line) or the literal
terminator string of line 795. -/
inductive OutMsg where
  | json (v : Json) : OutMsg
  | raw (s : String) : OutMsg

/-- Mutable state of the forwarding task of the translating streaming path
(lines 744-806): the sent_role flag, the frames pushed so far (in order) and
whether the task has returned. -/
structure SState where
  sentRole : Bool
  halted : Bool
  out : List OutMsg

/-- Initial forwarding-task state (line 748: sent_role = false). -/
def initSState : SState :=
  { sentRole := false, halted := false, out := [] }

/-- First index of two adjacent newline bytes, the blank-line frame delimiter
searched by memchr::memmem::find(&buf, b two-newlines) at line 753. -/
def findDelim : List Char → Option Nat
  | [] => none
  | [_] => none
  | a :: b :: rest =>
    if a = nl ∧ b = nl then some 0
    else (findDelim (b :: rest)).map (· + 1)

/-- event.split on the newline byte (line 755), keeping empty segments as the
Rust slice split does. -/
def splitNl (l : List Char) : List (List Char) :=
  l.foldr
    (fun c acc =>
      if c = nl then [] :: acc
      else match acc with
        | h :: t => (c :: h) :: t
        | [] => [[c]])
    [[]]

/-- The frame emitted for one output_text delta (lines 763-779): the delta
object carries content, plus role = assistant exactly when the sent_role flag
is still unset. -/
def deltaChunk (sess : Sess) (withRole : Bool) (d : String) : Json :=
  let deltaObj : Json :=
    if withRole then
      (Json.obj [("content", .str d)]).setField "role" (.str "assistant")
    else .obj [("content", .str d)]
  .obj [("id", .str sess.id),
        ("object", .str "chat.completion.chunk"),
        ("created", .num sess.created),
        ("model", .str sess.model),
        ("choices", .arr [.obj [("index", .num 0),
                                ("delta", deltaObj),
                                ("finish_reason", .null)]])]

/-- The final frame emitted on response.completed (lines 783-793): empty delta
and finish_reason stop. -/
def finalChunk (sess : Sess) : Json :=
  .obj [("id", .str sess.id),
        ("object", .str "chat.completion.chunk"),
        ("created", .num sess.created),
        ("model", .str sess.model),
        ("choices", .arr [.obj [("index", .num 0),
                                ("delta", .obj []),
                                ("finish_reason", .str "stop")]])]

/-- The literal terminator frame of line 795. -/
def doneRaw : String := "data: [DONE]" ++ String.mk [nl, nl]

/-- Dispatch of one data payload (lines 757-799): the DONE sentinel is a
no-op, unparsable payloads and unrecognized type tags are ignored, an
output_text delta with a string delta emits one frame (stamping the role
exactly once), and response.completed emits the final pair and returns.
Channel sends are modelled as succeeding (the consumer stays connected). -/
def procPayload (sess : Sess) (st : SState) (payload : List Char) : SState :=
  if payload = "[DONE]".data then st
  else
    match parseJson payload with
    | none => st
    | some val =>
      let kind := ((val.get "type").bind Json.asStr).getD ""
      if kind = "response.output_text.delta" then
        match (val.get "delta").bind Json.asStr with
        | some d =>
          if st.sentRole then
            { st with out := st.out ++ [.json (deltaChunk sess false d)] }
          else
            { st with sentRole := true,
                      out := st.out ++ [.json (deltaChunk sess true d)] }
        | none => st
      else if kind = "response.completed" then
        { st with halted := true,
                  out := st.out ++ [.json (finalChunk sess), .raw doneRaw] }
      else st

/-- One line of a drained event (line 756): only lines with the data prefix
are dispatched; nothing is processed once the task has returned. -/
def stepLine (sess : Sess) (st : SState) (line : List Char) : SState :=
  if st.halted then st
  else if line.take 6 = "data: ".data then procPayload sess st (line.drop 6)
  else st

/-- The for-loop over the lines of one drained event (lines 755-802). -/
def procFrame (sess : Sess) (st : SState) (event : List Char) : SState :=
  (splitNl event).foldl (stepLine sess) st

/-- The inner drain loop (lines 752-804), structurally fueled: while a
blank-line delimiter exists, drain the event through it and dispatch its
lines; a return inside the dispatch stops the loop.  The fuel passed by
procBuf always dominates the buffer length. -/
def procBufGo (sess : Sess) : Nat → SState → List Char → SState × List Char
  | 0, st, buf => (st, buf)
  | fuel + 1, st, buf =>
    match findDelim buf with
    | none => (st, buf)
    | some p =>
      let event := buf.take (p + 2)
      let rest := buf.drop (p + 2)
      let st' := procFrame sess st event
      if st'.halted then (st', rest) else procBufGo sess fuel st' rest

/-- Drain every complete frame currently in the buffer. -/
def procBuf (sess : Sess) (st : SState) (buf : List Char) : SState × List Char :=
  procBufGo sess buf.length st buf

/-- The outer receive loop of the forwarding task (lines 749-805): each
upstream chunk is appended to the buffer and the buffer drained; a return
inside the dispatch ends the task, as does the end of the upstream stream. -/
def runChunks (sess : Sess) (st : SState) (buf : List Char) :
    List (List Char) → SState × List Char
  | [] => (st, buf)
  | c :: cs =>
    let r := procBuf sess st (buf ++ c)
    if r.1.halted then r else runChunks sess r.1 r.2 cs

namespace Json

theorem lookupField_insert_self (fs : List (String × Json)) (k : String) (v : Json) :
    lookupField (insertField fs k v) k = some v := by
  induction fs with
  | nil => simp [insertField, lookupField]
  | cons f rest ih =>
    obtain ⟨k', v'⟩ := f
    by_cases h : k' = k
    · simp [insertField, lookupField, h]
    · simp [insertField, lookupField, h, ih]

theorem lookupField_insert_ne (fs : List (String × Json)) (k k2 : String) (v : Json)
    (h : k2 ≠ k) : lookupField (insertField fs k v) k2 = lookupField fs k2 := by
  have hk2 : k ≠ k2 := fun a => h a.symm
  induction fs with
  | nil => simp [insertField, lookupField, hk2]
  | cons f rest ih =>
    obtain ⟨k', v'⟩ := f
    simp only [insertField]
    by_cases hk : k' = k
    · rw [if_pos hk]
      simp only [lookupField]
      rw [if_neg hk2, if_neg (by rw [hk]; exact hk2)]
    · rw [if_neg hk]
      simp only [lookupField]
      by_cases hke : k' = k2
      · rw [if_pos hke, if_pos hke]
      · rw [if_neg hke, if_neg hke, ih]

theorem get_setField_self (j : Json) (k : String) (v : Json) (h : j.isObj = true) :
    (j.setField k v).get k = some v := by
  cases j <;> simp_all [isObj, setField, get, lookupField_insert_self]

theorem get_setField_ne (j : Json) (k k2 : String) (v : Json) (h : j.isObj = true)
    (hne : k2 ≠ k) : (j.setField k v).get k2 = j.get k2 := by
  cases j <;> simp_all [isObj, setField, get, lookupField_insert_ne _ _ _ _ hne]

theorem isObj_setField (j : Json) (k : String) (v : Json) (h : j.isObj = true) :
    (j.setField k v).isObj = true := by
  cases j <;> simp_all [isObj, setField]

end Json

/-- C9.  Auth gate: with the bypass disabled and bearer token "secret", a
missing Authorization header fails the gate, "Bearer secret" passes it,
"Bearer wrong" fails it; and on every protected route (list_models,
chat_completions, responses) a failed gate yields the 401 reply with body
error.message = "Unauthorized". -/
theorem auth_gate_behavior :
    checkAuth false (some "secret") none = false
    ∧ checkAuth false (some "secret") (some "Bearer secret") = true
    ∧ checkAuth false (some "secret") (some "Bearer wrong") = false
    ∧ (∀ (hd : Option String) (cfgModel : String),
        checkAuth false (some "secret") hd = false →
          listModelsHandler false (some "secret") hd cfgModel = .reply 401 unauthorizedBody
          ∧ (∀ wire auth coreBase req,
              chatCompletionsHandler false (some "secret") hd cfgModel wire auth coreBase req
                = .reply 401 unauthorizedBody)
          ∧ (∀ wire auth coreBase baseInstructions body,
              responsesHandler false (some "secret") hd wire auth coreBase baseInstructions body
                = .reply 401 unauthorizedBody)) := by
  refine ⟨by decide, by decide, by decide, ?_⟩
  intro hd cfgModel h
  refine ⟨?_, fun wire auth coreBase req => ?_, fun wire auth coreBase baseInstructions body => ?_⟩
  · simp [listModelsHandler, h]
  · simp [chatCompletionsHandler, h]
  · simp [responsesHandler, h]

/-- Witness for auth_gate_behavior at a concrete failing header. -/
theorem auth_gate_behavior_witness :
    checkAuth false (some "secret") (some "Bearer nope") = false
    ∧ listModelsHandler false (some "secret") (some "Bearer nope") "gpt-5"
        = .reply 401 unauthorizedBody := by
  have h : checkAuth false (some "secret") (some "Bearer nope") = false := by decide
  exact ⟨h, (auth_gate_behavior.2.2.2 (some "Bearer nope") "gpt-5" h).1⟩

/-- C8.  An authenticated POST to /v1/responses while the provider speaks
Chat-Completions is answered locally with status 501 and the error envelope;
no upstream request is issued (the outcome is never a forward). -/
theorem responses_unsupported_surface_501
    (allowNoAuth : Bool) (bearer : Option String) (hd : Option String)
    (auth : Option AuthMode) (coreBase : String) (baseInstructions : Option String)
    (body : Json) (hauth : checkAuth allowNoAuth bearer hd = true) :
    responsesHandler allowNoAuth bearer hd .chat auth coreBase baseInstructions body
      = .reply 501 (.obj [("error", .obj [("message",
          .str "Provider uses Chat Completions; /v1/responses not supported for this provider")])])
    ∧ ∀ (s : Bool) (b : Json),
        responsesHandler allowNoAuth bearer hd .chat auth coreBase baseInstructions body
          ≠ .forward s b := by
  constructor
  · simp [responsesHandler, hauth]
  · intro s b
    simp [responsesHandler, hauth]

/-- Witness for responses_unsupported_surface_501 with a passing gate. -/
theorem responses_unsupported_surface_501_witness :
    checkAuth false (some "secret") (some "Bearer secret") = true
    ∧ responsesHandler false (some "secret") (some "Bearer secret") .chat none "base" none
        (.obj [])
        = .reply 501 (.obj [("error", .obj [("message",
            .str "Provider uses Chat Completions; /v1/responses not supported for this provider")])]) :=
  ⟨by decide,
   (responses_unsupported_surface_501 false (some "secret") (some "Bearer secret") none
      "base" none (.obj []) (by decide)).1⟩

/-- C5.  ChatGPT-mode stamping: whenever the resolved auth mode is ChatGPT,
the upstream body carries store = false and instructions equal to the base
instruction text, on both the /v1/responses passthrough (whatever the caller
supplied for those fields) and the chat-to-responses translation. -/
theorem chatgpt_mode_stamping (coreBase : String) (baseInstructions : Option String)
    (body : Json) (hobj : body.isObj = true) :
    ((responsesBodyTransform (some .chatGPT) coreBase baseInstructions body).get "store"
        = some (.bool false)
      ∧ (responsesBodyTransform (some .chatGPT) coreBase baseInstructions body).get "instructions"
        = some (.str coreBase))
    ∧ ∀ (model : String) (stream : Bool) (msgs : List OpenAIChatMessage),
        (ccRequestBody (some .chatGPT) coreBase model stream msgs).get "store"
          = some (.bool false)
        ∧ (ccRequestBody (some .chatGPT) coreBase model stream msgs).get "instructions"
          = some (.str coreBase) := by
  constructor
  · have h1 : (body.setField "store" (.bool false)).isObj = true :=
      Json.isObj_setField _ _ _ hobj
    have hinstr :
        ((body.setField "store" (.bool false)).setField "instructions" (.str coreBase)).get
            "instructions" = some (.str coreBase) :=
      Json.get_setField_self _ _ _ h1
    have hstore :
        ((body.setField "store" (.bool false)).setField "instructions" (.str coreBase)).get
            "store" = some (.bool false) := by
      rw [Json.get_setField_ne _ _ _ _ h1 (by decide)]
      exact Json.get_setField_self _ _ _ hobj
    simp [responsesBodyTransform, hinstr, hstore, Json.asStr]
  · intro model stream msgs
    exact ⟨rfl, rfl⟩

/-- Witness for chatgpt_mode_stamping at a concrete caller body that tries to
override both fields. -/
theorem chatgpt_mode_stamping_witness :
    (Json.obj [("store", .bool true), ("instructions", .str "mine")]).isObj = true
    ∧ (responsesBodyTransform (some .chatGPT) "BASE" none
        (.obj [("store", .bool true), ("instructions", .str "mine")])).get "store"
        = some (.bool false)
    ∧ (responsesBodyTransform (some .chatGPT) "BASE" none
        (.obj [("store", .bool true), ("instructions", .str "mine")])).get "instructions"
        = some (.str "BASE") := by
  have h := chatgpt_mode_stamping "BASE" none
    (.obj [("store", .bool true), ("instructions", .str "mine")]) (by decide)
  exact ⟨by decide, h.1.1, h.1.2⟩

/-- C7.  Usage totals in the non-streaming translated response: when the
upstream usage object has no total_tokens field, the emitted total_tokens is
exactly prompt_tokens + completion_tokens (upstream input_tokens and
output_tokens, defaulting to 0 when absent); the sum is u64 arithmetic, so
the statement assumes it stays in range. -/
theorem usage_total_tokens_default_sum (uuid : String) (created : Int) (model : String)
    (v : Json) (habs : (usageOf v).get "total_tokens" = none)
    (hrange : promptTokensOf v + completionTokensOf v < 18446744073709551616) :
    ((ccBody uuid created model v).get "usage").bind (fun u => u.get "total_tokens")
      = some (.num (((promptTokensOf v + completionTokensOf v : Nat)) : Int))
    ∧ ((ccBody uuid created model v).get "usage").bind (fun u => u.get "prompt_tokens")
      = some (.num (promptTokensOf v))
    ∧ ((ccBody uuid created model v).get "usage").bind (fun u => u.get "completion_tokens")
      = some (.num (completionTokensOf v)) := by
  have htot : totalTokensOf v = promptTokensOf v + completionTokensOf v := by
    unfold totalTokensOf
    rw [habs]
    simp [Nat.mod_eq_of_lt hrange]
  refine ⟨?_, by rfl, by rfl⟩
  have hbase : ((ccBody uuid created model v).get "usage").bind (fun u => u.get "total_tokens")
      = some (.num (totalTokensOf v)) := by rfl
  rw [hbase, htot]

/-- Witness for usage_total_tokens_default_sum at a concrete upstream body. -/
theorem usage_total_tokens_default_sum_witness :
    (usageOf (.obj [("usage", .obj [("input_tokens", .num 3), ("output_tokens", .num 4)])])).get
        "total_tokens" = none
    ∧ ((ccBody "u" 0 "m" (.obj [("usage", .obj [("input_tokens", .num 3),
          ("output_tokens", .num 4)])])).get "usage").bind (fun u => u.get "total_tokens")
        = some (.num 7) := by
  have h := usage_total_tokens_default_sum "u" 0 "m"
    (.obj [("usage", .obj [("input_tokens", .num 3), ("output_tokens", .num 4)])])
    (by rfl) (by decide)
  exact ⟨by rfl, h.1⟩

/-- C10.  Non-streaming translating path: whenever the upstream body parses as
JSON — whatever the (valid) upstream status, success or error — the gateway
composes a chat.completion body with exactly one choice carrying role
assistant and finish_reason stop (content empty when no output array is
found), forwards the upstream status unchanged, and does not produce the
gateway error envelope. -/
theorem nonstreaming_translating_reply_shape (upstreamStatus : Nat) (v : Json)
    (errText uuid : String) (created : Int) (model : String)
    (hlo : 100 ≤ upstreamStatus) (hhi : upstreamStatus ≤ 999) :
    ccNonStreamingReply upstreamStatus (some v) errText uuid created model
      = (upstreamStatus, ccBody uuid created model v)
    ∧ (ccBody uuid created model v).get "object" = some (.str "chat.completion")
    ∧ (ccBody uuid created model v).get "choices"
      = some (.arr [.obj [("index", .num 0),
                          ("message", .obj [("role", .str "assistant"),
                                            ("content", .str (contentOf v))]),
                          ("finish_reason", .str "stop")]])
    ∧ (outputLookup v = none → contentOf v = "")
    ∧ (ccBody uuid created model v).get "error" = none := by
  refine ⟨?_, rfl, rfl, ?_, rfl⟩
  · simp [ccNonStreamingReply, statusClamp, hlo, hhi]
  · intro habs
    simp [contentOf, habs, Json.asArr, String.join]

/-- Witness for nonstreaming_translating_reply_shape at an upstream error
body under status 404. -/
theorem nonstreaming_translating_reply_shape_witness :
    ccNonStreamingReply 404 (some (.obj [("error", .str "nope")])) "" "u" 0 "m"
      = (404, ccBody "u" 0 "m" (.obj [("error", .str "nope")]))
    ∧ outputLookup (.obj [("error", .str "nope")]) = none
    ∧ contentOf (.obj [("error", .str "nope")]) = "" := by
  have h := nonstreaming_translating_reply_shape 404 (.obj [("error", .str "nope")])
    "" "u" 0 "m" (by decide) (by decide)
  exact ⟨h.1, by rfl, h.2.2.2.1 (by rfl)⟩

/-- C4 counterexample.  A message whose content is neither a string nor an
array (here the number 42) is not rejected: the normalizer maps it to an
input item with empty text, and the chat_completions handler proceeds to
forward the translated request upstream instead of failing with an
InvalidRequest error. -/
theorem nonstring_content_accepted_counterexample :
    mapChatMessagesToResponsesInput [⟨"user", .num 42⟩]
      = .arr [.obj [("role", .str "user"),
                    ("content", .arr [.obj [("type", .str "input_text"),
                                            ("text", .str "")]])]]
    ∧ chatCompletionsHandler false (some "secret") (some "Bearer secret") "gpt-5"
        .responses none "BASE" ⟨none, [⟨"user", .num 42⟩], none⟩
      = .forward false (ccRequestBody none "BASE" "gpt-5" false [⟨"user", .num 42⟩]) := by
  constructor
  · rfl
  · rfl

/-- C4 amended.  A message whose content is neither a string nor an array is
accepted, contributing an input item with empty text. -/
theorem nonstring_content_maps_to_empty_text (role : String) (c : Json)
    (hs : c.isStr = false) (ha : c.isArrOf = false) :
    chatContentText c = []
    ∧ msgToItem ⟨role, c⟩
      = .obj [("role", .str role),
              ("content", .arr [.obj [("type",
                  .str (if role = "assistant" then "output_text" else "input_text")),
                ("text", .str "")]])] := by
  have hct : chatContentText c = [] := by
    cases c <;> simp_all [Json.isStr, Json.isArrOf, chatContentText]
  refine ⟨hct, ?_⟩
  simp [msgToItem, hct]

/-- Witness for nonstring_content_maps_to_empty_text at numeric content. -/
theorem nonstring_content_maps_to_empty_text_witness :
    (Json.num 42).isStr = false
    ∧ (Json.num 42).isArrOf = false
    ∧ chatContentText (.num 42) = [] := by
  have h := nonstring_content_maps_to_empty_text "user" (.num 42) (by decide) (by decide)
  exact ⟨by decide, by decide, h.1⟩

/-- The text field (as chars) of every contributing part, in order: the items
the joining loop of lines 450-459 does not skip. -/
def textsOf (items : List Json) : List (List Char) :=
  items.filterMap (fun it => ((it.get "text").bind Json.asStr).map String.data)

/-- One step of the joining loop, on the extracted text list. -/
def joinStep (buf s : List Char) : List Char :=
  if buf = [] then buf ++ s else buf ++ nl :: s

/-- A newline separator before each element. -/
def sepJoin : List (List Char) → List Char
  | [] => []
  | s :: t => (nl :: s) ++ sepJoin t

/-- Texts joined by newline separators: the first element verbatim, a newline
before each following one. -/
def newlineJoin : List (List Char) → List Char
  | [] => []
  | x :: xs => x ++ sepJoin xs

/-- Modelled from the claim wording of C6 (array content concatenates its
text parts joined by newline separators): the spec-side content text, to be
compared with chatContentText from the source. -/
def specChatContentText (c : Json) : List Char :=
  match c with
  | .str s => s.data
  | .arr items => newlineJoin (textsOf items)
  | _ => []

/-- The content text of the amended claim: text parts joined by newline
separators after dropping the empty texts that precede the first non-empty
one. -/
def amendedChatContentText (c : Json) : List Char :=
  match c with
  | .str s => s.data
  | .arr items => newlineJoin ((textsOf items).dropWhile List.isEmpty)
  | _ => []

theorem foldl_joinStep_ne (t : List (List Char)) :
    ∀ buf : List Char, buf ≠ [] → t.foldl joinStep buf = buf ++ sepJoin t := by
  induction t with
  | nil => intro buf _; simp [sepJoin]
  | cons s t ih =>
    intro buf hbuf
    have hstep : joinStep buf s = buf ++ nl :: s := by simp [joinStep, hbuf]
    have hne : buf ++ nl :: s ≠ [] := by simp
    calc (s :: t).foldl joinStep buf = t.foldl joinStep (joinStep buf s) := rfl
      _ = (buf ++ nl :: s) ++ sepJoin t := by rw [hstep, ih _ hne]
      _ = buf ++ sepJoin (s :: t) := by simp [sepJoin]

theorem foldl_joinStep_empty (l : List (List Char)) :
    l.foldl joinStep [] = newlineJoin (l.dropWhile List.isEmpty) := by
  induction l with
  | nil => rfl
  | cons x t ih =>
    cases x with
    | nil =>
      have : joinStep [] [] = [] := by simp [joinStep]
      simp only [List.foldl_cons, this, ih, List.dropWhile]
      rfl
    | cons c cs =>
      have hstep : joinStep [] (c :: cs) = c :: cs := by simp [joinStep]
      have hne : (c :: cs : List Char) ≠ [] := by simp
      simp only [List.foldl_cons, hstep, foldl_joinStep_ne t _ hne, List.dropWhile]
      rfl

theorem joinTexts_eq_foldl (items : List Json) :
    ∀ buf : List Char,
      items.foldl
        (fun buf item =>
          match (item.get "text").bind Json.asStr with
          | some s => if buf = [] then buf ++ s.data else buf ++ nl :: s.data
          | none => buf)
        buf
      = (textsOf items).foldl joinStep buf := by
  induction items with
  | nil => intro buf; rfl
  | cons item rest ih =>
    intro buf
    cases hx : (item.get "text").bind Json.asStr with
    | none =>
      have h1 : textsOf (item :: rest) = textsOf rest := by
        simp only [textsOf, List.filterMap_cons, hx, Option.map_none']
      rw [h1, List.foldl_cons]
      simp only [hx]
      exact ih buf
    | some s =>
      have h1 : textsOf (item :: rest) = s.data :: textsOf rest := by
        simp only [textsOf, List.filterMap_cons, hx, Option.map_some']
      rw [h1, List.foldl_cons, List.foldl_cons]
      simp only [hx]
      rw [ih (if buf = [] then buf ++ s.data else buf ++ nl :: s.data)]
      rfl

/-- The loop of lines 450-459, characterized: the contributing texts, after
dropping the leading empty ones, joined by newline separators. -/
theorem joinTexts_characterization (items : List Json) :
    joinTexts items = newlineJoin ((textsOf items).dropWhile List.isEmpty) := by
  rw [joinTexts, joinTexts_eq_foldl items [], foldl_joinStep_empty]

/-- C6 counterexample.  For array content whose first text part is the empty
string, the code does not insert a newline separator before the following
text: content [(text ""), (text "a")] yields "a", while joining the text
parts with newline separators would yield a text starting with the newline.
The claim as stated (texts joined by newline separators) therefore fails at
this input. -/
theorem leading_empty_text_join_counterexample :
    chatContentText (.arr [.obj [("text", .str "")], .obj [("text", .str "a")]]) = ['a']
    ∧ specChatContentText (.arr [.obj [("text", .str "")], .obj [("text", .str "a")]])
      = [nl, 'a']
    ∧ chatContentText (.arr [.obj [("text", .str "")], .obj [("text", .str "a")]])
      ≠ specChatContentText (.arr [.obj [("text", .str "")], .obj [("text", .str "a")]]) := by
  refine ⟨rfl, rfl, ?_⟩
  intro h
  exact absurd (congrArg List.length h) (by decide)

/-- C6 amended.  Each inbound message maps to exactly one input item whose
single content part has type output_text for role assistant and input_text
for every other role; string content maps verbatim; array content
concatenates its text parts joined by newline separators after dropping the
empty texts that precede the first non-empty one; parts without a string
text field contribute nothing; any other content yields empty text. -/
theorem role_mapping_amended (msgs : List OpenAIChatMessage) (m : OpenAIChatMessage) :
    mapChatMessagesToResponsesInput msgs = .arr (msgs.map msgToItem)
    ∧ msgToItem m
      = .obj [("role", .str m.role),
              ("content", .arr [.obj [("type",
                  .str (if m.role = "assistant" then "output_text" else "input_text")),
                ("text", .str (String.mk (amendedChatContentText m.content)))]])] := by
  refine ⟨rfl, ?_⟩
  have hct : chatContentText m.content = amendedChatContentText m.content := by
    cases m.content with
    | arr items =>
      simp only [chatContentText, amendedChatContentText]
      exact joinTexts_characterization items
    | str s => rfl
    | null => rfl
    | bool b => rfl
    | num n => rfl
    | fnum l => rfl
    | obj fs => rfl
  simp [msgToItem, hct]

theorem findDelim_le (l : List Char) : ∀ p, findDelim l = some p → p + 2 ≤ l.length := by
  induction l with
  | nil => intro p h; simp [findDelim] at h
  | cons a t ih =>
    cases t with
    | nil => intro p h; simp [findDelim] at h
    | cons b r =>
      intro p h
      simp only [findDelim] at h
      split at h
      · cases h
        simp
      · obtain ⟨q, hq, hpq⟩ := Option.map_eq_some'.mp h
        have := ih q hq
        simp only [List.length_cons] at *
        omega

theorem findDelim_append (l ex : List Char) :
    ∀ p, findDelim l = some p → findDelim (l ++ ex) = some p := by
  induction l with
  | nil => intro p h; simp [findDelim] at h
  | cons a t ih =>
    cases t with
    | nil => intro p h; simp [findDelim] at h
    | cons b r =>
      intro p h
      have hgoal : (a :: b :: r) ++ ex = a :: b :: (r ++ ex) := by simp
      rw [hgoal]
      simp only [findDelim] at h ⊢
      split at h
      · rename_i hcond
        cases h
        rw [if_pos hcond]
      · rename_i hcond
        rw [if_neg hcond]
        obtain ⟨q, hq, hpq⟩ := Option.map_eq_some'.mp h
        have hrec : findDelim ((b :: r) ++ ex) = some q := ih q hq
        have hbr : (b :: r) ++ ex = b :: (r ++ ex) := by simp
        rw [hbr] at hrec
        rw [hrec]
        simp [hpq]

theorem foldl_stepLine_halted (sess : Sess) (lines : List (List Char)) :
    ∀ st : SState, st.halted = true → lines.foldl (stepLine sess) st = st := by
  induction lines with
  | nil => intro st _; rfl
  | cons l rest ih =>
    intro st h
    have hl : stepLine sess st l = st := by simp [stepLine, h]
    rw [List.foldl_cons, hl, ih st h]

theorem procFrame_halted (sess : Sess) (st : SState) (ev : List Char)
    (h : st.halted = true) : procFrame sess st ev = st :=
  foldl_stepLine_halted sess (splitNl ev) st h

theorem procBufGo_congr (sess : Sess) :
    ∀ f1 f2 st (buf : List Char), buf.length ≤ f1 → buf.length ≤ f2 →
      procBufGo sess f1 st buf = procBufGo sess f2 st buf := by
  intro f1
  induction f1 with
  | zero =>
    intro f2 st buf h1 _
    have hb : buf = [] := List.length_eq_zero.mp (Nat.le_zero.mp h1)
    subst hb
    cases f2 with
    | zero => rfl
    | succ f2 => simp [procBufGo, findDelim]
  | succ f1 ih =>
    intro f2 st buf h1 h2
    cases f2 with
    | zero =>
      have hb : buf = [] := List.length_eq_zero.mp (Nat.le_zero.mp h2)
      subst hb
      simp [procBufGo, findDelim]
    | succ f2 =>
      simp only [procBufGo]
      cases hd : findDelim buf with
      | none => rfl
      | some p =>
        have hle := findDelim_le buf p hd
        have hrest : (buf.drop (p + 2)).length ≤ f1 := by
          simp only [List.length_drop]; omega
        have hrest2 : (buf.drop (p + 2)).length ≤ f2 := by
          simp only [List.length_drop]; omega
        simp only [ih f2 _ _ hrest hrest2]

theorem procBuf_eq (sess : Sess) (st : SState) (buf : List Char) :
    procBuf sess st buf =
      match findDelim buf with
      | none => (st, buf)
      | some p =>
        let st' := procFrame sess st (buf.take (p + 2))
        if st'.halted then (st', buf.drop (p + 2))
        else procBuf sess st' (buf.drop (p + 2)) := by
  cases hb : buf with
  | nil => simp [procBuf, procBufGo, findDelim]
  | cons c rest =>
    rw [← hb]
    have hlen : buf.length = rest.length + 1 := by rw [hb]; rfl
    simp only [procBuf, hlen, procBufGo]
    cases hd : findDelim buf with
    | none => rfl
    | some p =>
      have hle := findDelim_le buf p hd
      have h1 : (buf.drop (p + 2)).length ≤ rest.length := by
        simp only [List.length_drop]; omega
      simp only [procBufGo_congr sess rest.length (buf.drop (p + 2)).length _ _ h1 le_rfl]

theorem procBuf_halted_id (sess : Sess) (st : SState) (buf : List Char)
    (h : st.halted = true) : (procBuf sess st buf).1 = st := by
  rw [procBuf_eq]
  cases hd : findDelim buf with
  | none => rfl
  | some p =>
    simp only
    rw [procFrame_halted sess st _ h]
    simp [h]

theorem procBuf_append (sess : Sess) :
    ∀ (n : Nat) (buf : List Char), buf.length ≤ n → ∀ (st : SState) (ex : List Char),
      st.halted = false →
      (procBuf sess st (buf ++ ex)).1 =
        (if (procBuf sess st buf).1.halted then (procBuf sess st buf).1
         else (procBuf sess (procBuf sess st buf).1 ((procBuf sess st buf).2 ++ ex)).1) := by
  intro n
  induction n with
  | zero =>
    intro buf hlen st ex hst
    have hb : buf = [] := List.length_eq_zero.mp (Nat.le_zero.mp hlen)
    subst hb
    have h0 : procBuf sess st [] = (st, []) := by
      rw [procBuf_eq]; rfl
    rw [h0]
    simp [hst]
  | succ n ih =>
    intro buf hlen st ex hst
    cases hd : findDelim buf with
    | none =>
      have h0 : procBuf sess st buf = (st, buf) := by
        rw [procBuf_eq, hd]
      rw [h0]
      simp [hst]
    | some p =>
      have hle := findDelim_le buf p hd
      have hdx : findDelim (buf ++ ex) = some p := findDelim_append buf ex p hd
      have htake : (buf ++ ex).take (p + 2) = buf.take (p + 2) :=
        List.take_append_of_le_length hle
      have hdrop : (buf ++ ex).drop (p + 2) = buf.drop (p + 2) ++ ex :=
        List.drop_append_of_le_length hle
      rw [procBuf_eq sess st (buf ++ ex), hdx]
      simp only [htake, hdrop]
      rw [procBuf_eq sess st buf, hd]
      simp only
      cases hh : (procFrame sess st (buf.take (p + 2))).halted with
      | true =>
        simp [hh]
      | false =>
        simp only [hh, if_false, Bool.false_eq_true]
        have hrest : (buf.drop (p + 2)).length ≤ n := by
          simp only [List.length_drop]; omega
        exact ih (buf.drop (p + 2)) hrest (procFrame sess st (buf.take (p + 2))) ex hh

theorem procBuf_eq_none (sess : Sess) (st : SState) (buf : List Char)
    (hd : findDelim buf = none) : procBuf sess st buf = (st, buf) := by
  rw [procBuf_eq, hd]

theorem procBuf_eq_some (sess : Sess) (st : SState) (buf : List Char) (p : Nat)
    (hd : findDelim buf = some p) :
    procBuf sess st buf =
      (if (procFrame sess st (buf.take (p + 2))).halted then
        (procFrame sess st (buf.take (p + 2)), buf.drop (p + 2))
       else procBuf sess (procFrame sess st (buf.take (p + 2))) (buf.drop (p + 2))) := by
  rw [procBuf_eq, hd]

theorem procBuf_rest_noDelim (sess : Sess) :
    ∀ (n : Nat) (buf : List Char), buf.length ≤ n → ∀ (st : SState),
      (procBuf sess st buf).1.halted = false → findDelim (procBuf sess st buf).2 = none := by
  intro n
  induction n with
  | zero =>
    intro buf hlen st _
    have hb : buf = [] := List.length_eq_zero.mp (Nat.le_zero.mp hlen)
    subst hb
    rw [procBuf_eq_none sess st [] (by rfl)]
    rfl
  | succ n ih =>
    intro buf hlen st hnh
    cases hd : findDelim buf with
    | none =>
      rw [procBuf_eq_none sess st buf hd]
      exact hd
    | some p =>
      rw [procBuf_eq_some sess st buf p hd] at hnh ⊢
      have hle := findDelim_le buf p hd
      have hrest : (buf.drop (p + 2)).length ≤ n := by
        simp only [List.length_drop]; omega
      cases hh : (procFrame sess st (buf.take (p + 2))).halted with
      | true => simp [hh] at hnh
      | false =>
        simp only [hh, if_false, Bool.false_eq_true] at hnh ⊢
        exact ih _ hrest _ hnh

theorem runChunks_eq_procBuf (sess : Sess) :
    ∀ (cs : List (List Char)) (st : SState) (buf : List Char),
      st.halted = false → findDelim buf = none →
      (runChunks sess st buf cs).1 = (procBuf sess st (buf ++ cs.flatten)).1 := by
  intro cs
  induction cs with
  | nil =>
    intro st buf hst hbuf
    have h0 : procBuf sess st buf = (st, buf) := by rw [procBuf_eq, hbuf]
    simp [runChunks, h0]
  | cons c cs ih =>
    intro st buf hst hbuf
    have hflat : (c :: cs).flatten = c ++ cs.flatten := by simp
    have hassoc : buf ++ (c ++ cs.flatten) = (buf ++ c) ++ cs.flatten := by simp
    rw [hflat, hassoc]
    have happ := procBuf_append sess (buf ++ c).length (buf ++ c) le_rfl st cs.flatten hst
    rw [happ]
    simp only [runChunks]
    cases hh : (procBuf sess st (buf ++ c)).1.halted with
    | true => simp [hh]
    | false =>
      simp only [hh, if_false, Bool.false_eq_true]
      have hnd : findDelim (procBuf sess st (buf ++ c)).2 = none :=
        procBuf_rest_noDelim sess (buf ++ c).length (buf ++ c) le_rfl st hh
      exact ih _ _ hh hnd

theorem runChunks_halted_id (sess : Sess) :
    ∀ (cs : List (List Char)) (st : SState) (buf : List Char),
      st.halted = true → (runChunks sess st buf cs).1 = st := by
  intro cs
  induction cs with
  | nil => intro st buf _; rfl
  | cons c cs ih =>
    intro st buf hst
    simp only [runChunks]
    have h1 : (procBuf sess st (buf ++ c)).1 = st := procBuf_halted_id sess st _ hst
    cases hh : (procBuf sess st (buf ++ c)).1.halted with
    | true => simp [hh, h1]
    | false => rw [h1] at hh; rw [hst] at hh; cases hh

theorem runChunks_halted_append (sess : Sess) :
    ∀ (cs more : List (List Char)) (st : SState) (buf : List Char),
      (runChunks sess st buf cs).1.halted = true →
      (runChunks sess st buf (cs ++ more)).1 = (runChunks sess st buf cs).1 := by
  intro cs
  induction cs with
  | nil =>
    intro more st buf h
    simp only [runChunks, List.nil_append] at h ⊢
    exact runChunks_halted_id sess more st buf h
  | cons c cs ih =>
    intro more st buf h
    simp only [runChunks, List.cons_append] at h ⊢
    cases hh : (procBuf sess st (buf ++ c)).1.halted with
    | true => simp [hh]
    | false =>
      simp only [hh, if_false, Bool.false_eq_true] at h ⊢
      exact ih more _ _ h

/-- The concrete frame of the C1 claim: one complete SSE frame carrying the
response.completed event. -/
def completedFrame : List Char :=
  ("data: \x7b\"type\":\"response.completed\"\x7d" ++ String.mk [nl, nl]).data

/-- C1.  SSE reassembly is chunk-boundary-insensitive: for every partition of
the upstream byte sequence into chunks, the forwarding task reaches the same
state — same dispatched frames in the same order, same role flag, same
termination — as when the whole sequence arrives as one chunk; in particular,
splitting the response.completed frame at any byte offset dispatches exactly
one recognized response.completed event (the final-chunk/DONE pair, emitted
once, with the task terminated). -/
theorem sse_reassembly_chunk_boundary_insensitive (sess : Sess) :
    (∀ chunks : List (List Char),
      (runChunks sess initSState [] chunks).1
        = (runChunks sess initSState [] [chunks.flatten]).1)
    ∧ ∀ k : Nat,
      (runChunks sess initSState [] [completedFrame.take k, completedFrame.drop k]).1
        = { sentRole := false, halted := true,
            out := [.json (finalChunk sess), .raw doneRaw] } := by
  have hmain : ∀ chunks : List (List Char),
      (runChunks sess initSState [] chunks).1 = (procBuf sess initSState chunks.flatten).1 := by
    intro chunks
    have h := runChunks_eq_procBuf sess chunks initSState [] rfl rfl
    simpa using h
  constructor
  · intro chunks
    rw [hmain chunks, hmain [chunks.flatten]]
    simp
  · intro k
    rw [hmain [completedFrame.take k, completedFrame.drop k]]
    have hflat : ([completedFrame.take k, completedFrame.drop k] : List (List Char)).flatten
        = completedFrame := by
      simp
    rw [hflat]
    rfl

/-- The single choice object of a translated frame. -/
def frameChoice (v : Json) : Option Json :=
  ((v.get "choices").bind Json.asArr).bind List.head?

/-- The delta object of a translated frame. -/
def frameDeltaObj (v : Json) : Option Json :=
  (frameChoice v).bind (fun c => c.get "delta")

/-- Whether a bridge message carries a role field inside its delta object. -/
def hasRoleTag : OutMsg → Bool
  | .json v => ((frameDeltaObj v).bind (fun d => d.get "role")).isSome
  | .raw _ => false

/-- Whether a bridge message is a translated output_text delta frame
(finish_reason null), as opposed to the final stop frame or the DONE
terminator. -/
def isDeltaFrame : OutMsg → Bool
  | .json v =>
    match (frameChoice v).bind (fun c => c.get "finish_reason") with
    | some .null => true
    | _ => false
  | .raw _ => false

theorem hasRoleTag_deltaChunk_withRole (sess : Sess) (d : String) :
    hasRoleTag (.json (deltaChunk sess true d)) = true := rfl

theorem hasRoleTag_deltaChunk_noRole (sess : Sess) (d : String) :
    hasRoleTag (.json (deltaChunk sess false d)) = false := rfl

theorem hasRoleTag_finalChunk (sess : Sess) :
    hasRoleTag (.json (finalChunk sess)) = false := rfl

theorem isDeltaFrame_deltaChunk (sess : Sess) (b : Bool) (d : String) :
    isDeltaFrame (.json (deltaChunk sess b d)) = true := by
  cases b <;> rfl

theorem isDeltaFrame_finalChunk (sess : Sess) :
    isDeltaFrame (.json (finalChunk sess)) = false := rfl

/-- Invariant of the forwarding-task state: when the task has returned, the
output is delta frames followed by exactly the final-chunk/DONE pair; while
it runs, only delta frames have been pushed; when the role flag is set, the
very first pushed frame (and no other) carries the role tag; while the flag
is unset, no pushed frame carries it (and none is a delta frame). -/
def StreamInv (sess : Sess) (st : SState) : Prop :=
  (st.halted = true → ∃ pre, st.out = pre ++ [.json (finalChunk sess), .raw doneRaw]
      ∧ ∀ f ∈ pre, isDeltaFrame f = true)
  ∧ (st.halted = false → ∀ f ∈ st.out, isDeltaFrame f = true)
  ∧ (st.sentRole = true → ∃ f ts, st.out = f :: ts ∧ hasRoleTag f = true
      ∧ ∀ g ∈ ts, hasRoleTag g = false)
  ∧ (st.sentRole = false → ∀ f ∈ st.out, hasRoleTag f = false ∧ isDeltaFrame f = false)

theorem streamInv_init (sess : Sess) : StreamInv sess initSState := by
  unfold StreamInv
  refine ⟨?_, ?_, ?_, ?_⟩
  · intro h; cases h
  · intro _ f hf; cases hf
  · intro h; cases h
  · intro _ f hf; cases hf


theorem streamInv_emit_delta_again (sess : Sess) (st : SState) (d : String)
    (hh : st.halted = false) (hsr : st.sentRole = true) (hinv : StreamInv sess st) :
    StreamInv sess { st with out := st.out ++ [.json (deltaChunk sess false d)] } := by
  obtain ⟨h1, h2, h3, h4⟩ := hinv
  obtain ⟨f, ts, hout, hrole, hts⟩ := h3 hsr
  unfold StreamInv
  refine ⟨?_, ?_, ?_, ?_⟩
  · intro hht
    simp only at hht
    rw [hh] at hht
    cases hht
  · intro _ g hg
    simp only at hg
    rcases List.mem_append.mp hg with hg | hg
    · exact h2 hh g hg
    · rcases List.mem_singleton.mp hg with rfl
      exact isDeltaFrame_deltaChunk sess false d
  · intro _
    refine ⟨f, ts ++ [.json (deltaChunk sess false d)], ?_, hrole, ?_⟩
    · simp only [hout, List.cons_append]
    · intro g hg
      rcases List.mem_append.mp hg with hg | hg
      · exact hts g hg
      · rcases List.mem_singleton.mp hg with rfl
        exact hasRoleTag_deltaChunk_noRole sess d
  · intro hsf
    simp only at hsf
    rw [hsf] at hsr
    cases hsr

theorem streamInv_emit_delta_first (sess : Sess) (st : SState) (d : String)
    (hh : st.halted = false) (hsr : st.sentRole = false) (hinv : StreamInv sess st) :
    StreamInv sess { st with sentRole := true, out := st.out ++ [.json (deltaChunk sess true d)] } := by
  obtain ⟨h1, h2, h3, h4⟩ := hinv
  have hempty : st.out = [] := by
    cases ho : st.out with
    | nil => rfl
    | cons f rest =>
      have hmem : f ∈ st.out := by rw [ho]; exact List.mem_cons_self f rest
      have ha := h2 hh f hmem
      have hb := (h4 hsr f hmem).2
      rw [ha] at hb
      cases hb
  unfold StreamInv
  refine ⟨?_, ?_, ?_, ?_⟩
  · intro hht
    simp only at hht
    rw [hh] at hht
    cases hht
  · intro _ g hg
    simp only [hempty, List.nil_append] at hg
    rcases List.mem_singleton.mp hg with rfl
    exact isDeltaFrame_deltaChunk sess true d
  · intro _
    refine ⟨.json (deltaChunk sess true d), [], ?_, hasRoleTag_deltaChunk_withRole sess d, ?_⟩
    · simp only [hempty, List.nil_append]
    · intro g hg
      cases hg
  · intro hsf
    simp only at hsf
    cases hsf

theorem streamInv_emit_completed (sess : Sess) (st : SState)
    (hh : st.halted = false) (hinv : StreamInv sess st) :
    StreamInv sess { st with halted := true, out := st.out ++ [.json (finalChunk sess), .raw doneRaw] } := by
  obtain ⟨h1, h2, h3, h4⟩ := hinv
  unfold StreamInv
  refine ⟨?_, ?_, ?_, ?_⟩
  · intro _
    exact ⟨st.out, rfl, h2 hh⟩
  · intro hht
    simp only at hht
    cases hht
  · intro hsr
    simp only at hsr
    obtain ⟨f, ts, hout, hrole, hts⟩ := h3 hsr
    refine ⟨f, ts ++ [.json (finalChunk sess), .raw doneRaw], ?_, hrole, ?_⟩
    · simp only [hout, List.cons_append]
    · intro g hg
      rcases List.mem_append.mp hg with hg | hg
      · exact hts g hg
      · rcases List.mem_cons.mp hg with rfl | hg
        · exact hasRoleTag_finalChunk sess
        · rcases List.mem_singleton.mp hg with rfl
          rfl
  · intro hsr
    simp only at hsr
    intro g hg
    simp only at hg
    rcases List.mem_append.mp hg with hg | hg
    · exact h4 hsr g hg
    · rcases List.mem_cons.mp hg with rfl | hg
      · exact ⟨hasRoleTag_finalChunk sess, isDeltaFrame_finalChunk sess⟩
      · rcases List.mem_singleton.mp hg with rfl
        exact ⟨rfl, rfl⟩

theorem procPayload_inv (sess : Sess) (st : SState) (p : List Char)
    (hh : st.halted = false) (hinv : StreamInv sess st) :
    StreamInv sess (procPayload sess st p) := by
  unfold procPayload
  split
  · exact hinv
  cases hp : parseJson p with
  | none => exact hinv
  | some val =>
    simp only
    split
    · cases hd : (val.get "delta").bind Json.asStr with
      | none => exact hinv
      | some d =>
        simp only
        split
        · rename_i hsr
          exact streamInv_emit_delta_again sess st d hh hsr hinv
        · rename_i hsr
          have hsr2 : st.sentRole = false := by
            revert hsr
            cases st.sentRole <;> simp
          exact streamInv_emit_delta_first sess st d hh hsr2 hinv
    · split
      · exact streamInv_emit_completed sess st hh hinv
      · exact hinv

theorem stepLine_inv (sess : Sess) (st : SState) (l : List Char)
    (hinv : StreamInv sess st) : StreamInv sess (stepLine sess st l) := by
  unfold stepLine
  split
  · exact hinv
  · rename_i hnh
    have hh : st.halted = false := by
      revert hnh
      cases st.halted <;> simp
    split
    · exact procPayload_inv sess st _ hh hinv
    · exact hinv

theorem procFrame_inv (sess : Sess) (st : SState) (ev : List Char)
    (hinv : StreamInv sess st) : StreamInv sess (procFrame sess st ev) := by
  unfold procFrame
  generalize splitNl ev = lines
  induction lines generalizing st with
  | nil => exact hinv
  | cons l rest ih =>
    rw [List.foldl_cons]
    exact ih (stepLine sess st l) (stepLine_inv sess st l hinv)

theorem procBufGo_inv (sess : Sess) :
    ∀ (fuel : Nat) (st : SState) (buf : List Char), StreamInv sess st →
      StreamInv sess (procBufGo sess fuel st buf).1 := by
  intro fuel
  induction fuel with
  | zero => intro st buf hinv; exact hinv
  | succ fuel ih =>
    intro st buf hinv
    simp only [procBufGo]
    cases hd : findDelim buf with
    | none => exact hinv
    | some p =>
      simp only
      have hfr := procFrame_inv sess st (buf.take (p + 2)) hinv
      split
      · exact hfr
      · exact ih _ _ hfr

theorem runChunks_inv (sess : Sess) :
    ∀ (cs : List (List Char)) (st : SState) (buf : List Char), StreamInv sess st →
      StreamInv sess (runChunks sess st buf cs).1 := by
  intro cs
  induction cs with
  | nil => intro st buf hinv; exact hinv
  | cons c rest ih =>
    intro st buf hinv
    simp only [runChunks]
    have hpb : StreamInv sess (procBuf sess st (buf ++ c)).1 :=
      procBufGo_inv sess _ st (buf ++ c) hinv
    split
    · exact hpb
    · exact ih _ _ hpb

/-- C2.  Exactly-once role tag: in any translating streaming session in which
at least one output_text delta frame is emitted, the very first frame pushed
onto the bridge carries role = assistant inside its delta object, and no
later frame of the session carries a role field. -/
theorem role_tag_exactly_once (sess : Sess) (chunks : List (List Char))
    (h : 0 < ((runChunks sess initSState [] chunks).1.out.countP isDeltaFrame)) :
    ∃ f ts, (runChunks sess initSState [] chunks).1.out = f :: ts
      ∧ hasRoleTag f = true ∧ ∀ g ∈ ts, hasRoleTag g = false := by
  have hinv := runChunks_inv sess chunks initSState [] (streamInv_init sess)
  obtain ⟨h1, h2, h3, h4⟩ := hinv
  cases hsr : (runChunks sess initSState [] chunks).1.sentRole with
  | true => exact h3 hsr
  | false =>
    exfalso
    have hzero : ((runChunks sess initSState [] chunks).1.out.countP isDeltaFrame) = 0 := by
      rw [List.countP_eq_zero]
      intro f hf
      rw [(h4 hsr f hf).2]
      exact Bool.false_ne_true
    rw [hzero] at h
    cases h

/-- Witness for role_tag_exactly_once: one delta event in one chunk. -/
theorem role_tag_exactly_once_witness :
    0 < ((runChunks ⟨"i", 0, "m"⟩ initSState []
        [("data: \x7b\"type\":\"response.output_text.delta\",\"delta\":\"hi\"\x7d"
            ++ String.mk [nl, nl]).data]).1.out.countP isDeltaFrame)
    ∧ ∃ f ts, (runChunks ⟨"i", 0, "m"⟩ initSState []
        [("data: \x7b\"type\":\"response.output_text.delta\",\"delta\":\"hi\"\x7d"
            ++ String.mk [nl, nl]).data]).1.out = f :: ts
      ∧ hasRoleTag f = true ∧ ∀ g ∈ ts, hasRoleTag g = false :=
  ⟨by decide, role_tag_exactly_once ⟨"i", 0, "m"⟩ _ (by decide)⟩

/-- C3.  Terminal ordering: whenever the forwarding task of the translating
streaming path terminates (which happens exactly when a response.completed
event is dispatched), the pushed frames are delta frames followed
immediately by the final chunk — whose delta object is empty and whose
finish_reason is stop — and then the literal DONE terminator; and feeding
any further upstream bytes afterwards changes nothing. -/
theorem terminal_ordering_on_completed (sess : Sess) (chunks : List (List Char))
    (h : (runChunks sess initSState [] chunks).1.halted = true) :
    (∃ pre, (runChunks sess initSState [] chunks).1.out
        = pre ++ [.json (finalChunk sess), .raw doneRaw]
      ∧ ∀ f ∈ pre, isDeltaFrame f = true)
    ∧ (∀ more, (runChunks sess initSState [] (chunks ++ more)).1
        = (runChunks sess initSState [] chunks).1)
    ∧ frameDeltaObj (finalChunk sess) = some (.obj [])
    ∧ ((frameChoice (finalChunk sess)).bind (fun c => c.get "finish_reason"))
        = some (.str "stop")
    ∧ doneRaw.data = "data: [DONE]".data ++ [nl, nl] := by
  have hinv := runChunks_inv sess chunks initSState [] (streamInv_init sess)
  exact ⟨hinv.1 h,
    fun more => runChunks_halted_append sess chunks more initSState [] h,
    rfl, rfl, by simp [doneRaw]⟩

/-- Witness for terminal_ordering_on_completed: a completed event followed by
a further delta chunk that is never forwarded. -/
theorem terminal_ordering_on_completed_witness :
    (runChunks ⟨"i", 0, "m"⟩ initSState []
        [("data: \x7b\"type\":\"response.completed\"\x7d" ++ String.mk [nl, nl]).data]).1.halted
      = true
    ∧ (∀ more, (runChunks ⟨"i", 0, "m"⟩ initSState []
          ([("data: \x7b\"type\":\"response.completed\"\x7d"
              ++ String.mk [nl, nl]).data] ++ more)).1
        = (runChunks ⟨"i", 0, "m"⟩ initSState []
            [("data: \x7b\"type\":\"response.completed\"\x7d"
              ++ String.mk [nl, nl]).data]).1) :=
  ⟨by decide,
   (terminal_ordering_on_completed ⟨"i", 0, "m"⟩
      [("data: \x7b\"type\":\"response.completed\"\x7d"
          ++ String.mk [nl, nl]).data] (by decide)).2.1⟩
